import Mathlib

/-!
# Blackjack dealer/player protocol — verification development

Shallow embedding of the two-process blackjack system (a dealer process
`server.py` and a player process `client.py`) and proofs of the stated
protocol properties.  Bytes are modelled as natural numbers `< 256`, byte
strings as `List ℕ`, and the random card source as an explicit stream
`ℕ → Card` consumed left to right.  The player's decision frames arrive as a
finite script of raw 10-byte frames; exhausting the script models the peer
closing the connection (the session aborts, `Option.none`).
-/

set_option autoImplicit false

namespace Blackjack

/-- The protocol's 4-byte magic constant (`MAGIC_COOKIE = 0xabcddcba`). -/
def MAGIC_COOKIE : ℕ := 0xabcddcba

/-- A playing card `(rank, suit)`, rank in 1..13, suit in 0..3 (`get_card`). -/
abbrev Card := ℕ × ℕ

/-- `card_value` from `server.py`: Ace (1) is worth 11, ranks ≥ 10 are worth
10, other ranks their numeric value. -/
def card_value (rank : ℕ) : ℕ :=
  if rank = 1 then 11 else if rank ≥ 10 then 10 else rank

/-- Hand total as computed by the server:
`sum(card_value(c[0]) for c in cards)`. -/
def handTotal (cards : List Card) : ℕ :=
  (cards.map (fun c => card_value c.1)).sum

/-- A card produced by `get_card`: rank in 1..13, suit in 0..3. -/
def validCard (c : Card) : Prop := 1 ≤ c.1 ∧ c.1 ≤ 13 ∧ c.2 ≤ 3

instance : DecidablePred validCard := fun c => by unfold validCard; infer_instance

/-- A card stream all of whose cards are possible outputs of `get_card`. -/
def validStream (cards : ℕ → Card) : Prop := ∀ i, validCard (cards i)

/-! ## Message codec -/

/-- Big-endian 2-byte encoding (`struct` format `H`). -/
def u16be (v : ℕ) : List ℕ := [v / 256 % 256, v % 256]

/-- Big-endian 4-byte encoding (`struct` format `I`). -/
def u32be (v : ℕ) : List ℕ := [v / 2 ^ 24 % 256, v / 2 ^ 16 % 256, v / 256 % 256, v % 256]

/-- Big-endian value of a byte string. -/
def fromBE (bs : List ℕ) : ℕ := bs.foldl (fun a b => 256 * a + b) 0

/-- Zero-pad (and truncate) an identity byte string to the fixed 32-byte
field, as `struct` format `32s` / `bytes.ljust(32, b'\x00')` do. -/
def pad32 (s : List ℕ) : List ℕ :=
  s.take 32 ++ List.replicate (32 - s.length) 0

/-- Everything before the first null byte
(client: `srv_name.split(b'\x00', 1)[0]`). -/
def takeToNull (s : List ℕ) : List ℕ := s.takeWhile (fun b => b != 0)

/-- Null bytes stripped from both ends (server: `name.decode().strip('\x00')`). -/
def stripNulls (s : List ℕ) : List ℕ :=
  ((s.dropWhile (fun b => b == 0)).reverse.dropWhile (fun b => b == 0)).reverse

/-- Offer message (dealer → broadcast): advertised TCP port and identity. -/
structure Offer where
  port : ℕ
  identity : List ℕ
  deriving DecidableEq, Repr

/-- Session request (player → dealer): requested round count and identity. -/
structure SessionRequest where
  rounds : ℕ
  identity : List ℕ
  deriving DecidableEq, Repr

/-- Game payload (dealer → player): result byte, rank, suit. -/
structure GamePayload where
  res : ℕ
  rank : ℕ
  suit : ℕ
  deriving DecidableEq, Repr

/-- Decision (player → dealer): the 5-byte ASCII command. -/
structure Decision where
  command : List ℕ
  deriving DecidableEq, Repr

/-- `struct.pack('!IBH32s', MAGIC_COOKIE, 0x2, port, name)` — 39 bytes. -/
def encodeOffer (o : Offer) : List ℕ :=
  u32be MAGIC_COOKIE ++ 0x2 :: u16be o.port ++ pad32 o.identity

/-- `struct.pack('!IBB32s', MAGIC_COOKIE, 0x3, rounds, name)` — 38 bytes. -/
def encodeRequest (m : SessionRequest) : List ℕ :=
  u32be MAGIC_COOKIE ++ 0x3 :: m.rounds % 256 :: pad32 m.identity

/-- `struct.pack('!IBB HB', MAGIC_COOKIE, 0x4, res, rank, suit)` — 9 bytes. -/
def encodePayload (g : GamePayload) : List ℕ :=
  u32be MAGIC_COOKIE ++ 0x4 :: g.res % 256 :: u16be g.rank ++ [g.suit % 256]

/-- `struct.pack('!IB5s', MAGIC_COOKIE, 0x4, msg)` — 10 bytes (`5s` pads
or truncates the command to exactly 5 bytes). -/
def encodeDecision (d : Decision) : List ℕ :=
  u32be MAGIC_COOKIE ++ 0x4 :: (d.command.take 5 ++ List.replicate (5 - d.command.length) 0)

/-- Client-side Offer decode (`struct.unpack('!IBH32s', data[:39])` plus the
magic/type check and the split of the name at its first null byte); needs at
least 39 bytes, rejects wrong magic or type. -/
def decodeOffer : List ℕ → Option Offer
  | m0 :: m1 :: m2 :: m3 :: ty :: p0 :: p1 :: rest =>
    if 32 ≤ rest.length ∧ fromBE [m0, m1, m2, m3] = MAGIC_COOKIE ∧ ty = 0x2 then
      some ⟨fromBE [p0, p1], takeToNull (rest.take 32)⟩
    else none
  | _ => none

/-- Server-side SessionRequest decode (`struct.unpack('!IBB32s', data[:38])`
on exactly 38 accumulated bytes, magic/type check, nulls stripped from the
name). -/
def decodeRequest : List ℕ → Option SessionRequest
  | m0 :: m1 :: m2 :: m3 :: ty :: rc :: rest =>
    if rest.length = 32 ∧ fromBE [m0, m1, m2, m3] = MAGIC_COOKIE ∧ ty = 0x3 then
      some ⟨rc, stripNulls rest⟩
    else none
  | _ => none

/-- Client-side GamePayload decode (`struct.unpack('!IBB HB', data)` on
exactly 9 accumulated bytes, magic/type check). -/
def decodePayload : List ℕ → Option GamePayload
  | [m0, m1, m2, m3, ty, res, r0, r1, suit] =>
    if fromBE [m0, m1, m2, m3] = MAGIC_COOKIE ∧ ty = 0x4 then
      some ⟨res, fromBE [r0, r1], suit⟩
    else none
  | _ => none

/-- Server-side Decision decode (`struct.unpack('!IB5s', decision_data)` on
exactly 10 accumulated bytes, magic/type check; the command is the raw
5 bytes, not stripped). -/
def decodeDecision : List ℕ → Option Decision
  | [m0, m1, m2, m3, ty, c0, c1, c2, c3, c4] =>
    if fromBE [m0, m1, m2, m3] = MAGIC_COOKIE ∧ ty = 0x4 then
      some ⟨[c0, c1, c2, c3, c4]⟩
    else none
  | _ => none

/-- A well-formed identity string: at most 32 ASCII-range bytes, none of
them null (so zero-padding and null-stripping are inverse to each other). -/
def WFident (s : List ℕ) : Prop :=
  s.length ≤ 32 ∧ ∀ b ∈ s, 0 < b ∧ b < 256

instance : DecidablePred WFident := fun s => by unfold WFident; infer_instance

/-- A well-formed 32-byte identity field on the wire: a null-free identity
followed by null padding. -/
def identField (f : List ℕ) : Prop :=
  ∃ s k, (∀ b ∈ s, 0 < b ∧ b < 256) ∧ s.length + k = 32 ∧ f = s ++ List.replicate k 0

/-- A valid Offer frame: 39 bytes, correct magic and type, well-formed
identity field. -/
def validOfferFrame (b : List ℕ) : Prop :=
  b.length = 39 ∧ (∀ x ∈ b, x < 256) ∧ b.take 4 = u32be MAGIC_COOKIE ∧
    b.getD 4 0 = 0x2 ∧ identField (b.drop 7)

/-- A valid SessionRequest frame: 38 bytes, correct magic and type,
well-formed identity field. -/
def validRequestFrame (b : List ℕ) : Prop :=
  b.length = 38 ∧ (∀ x ∈ b, x < 256) ∧ b.take 4 = u32be MAGIC_COOKIE ∧
    b.getD 4 0 = 0x3 ∧ identField (b.drop 6)

/-- A valid GamePayload frame: 9 bytes, correct magic and type. -/
def validPayloadFrame (b : List ℕ) : Prop :=
  b.length = 9 ∧ (∀ x ∈ b, x < 256) ∧ b.take 4 = u32be MAGIC_COOKIE ∧ b.getD 4 0 = 0x4

/-- A valid Decision frame: 10 bytes, correct magic and type. -/
def validDecisionFrame (b : List ℕ) : Prop :=
  b.length = 10 ∧ (∀ x ∈ b, x < 256) ∧ b.take 4 = u32be MAGIC_COOKIE ∧ b.getD 4 0 = 0x4

/-- The ASCII bytes of the Hit token `b"Hittt"`. -/
def hitToken : List ℕ := [72, 105, 116, 116, 116]

/-- The ASCII bytes of `b"Stand"` (any non-Hit command works as Stand). -/
def standToken : List ℕ := [83, 116, 97, 110, 100]

/-! ## Session engine -/

/-- The "your move" prompt: payload with `res = 0, rank = 0, suit = 0`. -/
def controlFrame : GamePayload := ⟨0, 0, 0⟩

/-- A dealt card sent on the wire: `res = 0`, the card's rank and suit. -/
def cardFrame (c : Card) : GamePayload := ⟨0, c.1, c.2⟩

/-- The end-of-round marker: `rank = 0, suit = 0`, result code in `res`. -/
def resultFrame (res : ℕ) : GamePayload := ⟨res, 0, 0⟩

/-- The result byte computed by the server from the final totals:
start from Tie (1), player bust ⇒ Loss (2), else dealer bust or higher
player total ⇒ Win (3), else higher dealer total ⇒ Loss (2). -/
def resultByte (p_sum d_sum : ℕ) : ℕ :=
  if p_sum > 21 then 0x2
  else if d_sum > 21 ∨ p_sum > d_sum then 0x3
  else if d_sum > p_sum then 0x2
  else 0x1

/-- Round result from the player's perspective, as the spec describes it. -/
inductive Result
  | TIE
  | LOSS
  | WIN
  deriving DecidableEq, Repr

/-- Modelled from the spec's result rule, in the spec's own precedence order:
player total > 21 ⇒ LOSS; else dealer total > 21 or player > dealer ⇒ WIN;
else dealer > player ⇒ LOSS; else TIE.  (For comparison with `resultByte`,
which is translated from the code.) -/
def roundResultSpec (p d : ℕ) : Result :=
  if p > 21 then .LOSS
  else if d > 21 ∨ p > d then .WIN
  else if d > p then .LOSS
  else .TIE

/-- Wire code of a result: TIE = 1, LOSS = 2, WIN = 3. -/
def resultCode : Result → ℕ
  | .TIE => 0x1
  | .LOSS => 0x2
  | .WIN => 0x3

/-- The client's decoding of a terminal result byte
(`outcomes = {1: "TIE", 2: "LOSS", 3: "WIN"}`). -/
def clientOutcome (res : ℕ) : Option Result :=
  if res = 1 then some .TIE
  else if res = 2 then some .LOSS
  else if res = 3 then some .WIN
  else none

/-- The client's per-session statistics counters. -/
structure Stats where
  wins : ℕ
  losses : ℕ
  ties : ℕ
  deriving DecidableEq, Repr

/-- The client's statistics update on a terminal result byte. -/
def statsUpdate (s : Stats) (res : ℕ) : Stats :=
  if res = 1 then { s with ties := s.ties + 1 }
  else if res = 2 then { s with losses := s.losses + 1 }
  else if res = 3 then { s with wins := s.wins + 1 }
  else s

/-- Dealer draw loop (`while d_sum < 17`), consuming cards from the stream
starting at `idx`; returns the final dealer hand and the next unconsumed
stream index.  The loop in the source is unbounded; `fuel` is an upper bound
on the number of iterations, and `dealerDraw_total_ge` below shows that for
real card streams the loop always stops within the fuel used by `runRound`
(each drawn card is worth at least 2 points). -/
def dealerDraw (cards : ℕ → Card) (fuel idx : ℕ) (hand : List Card) : List Card × ℕ :=
  match fuel with
  | 0 => (hand, idx)
  | fuel + 1 =>
    if handTotal hand < 17 then dealerDraw cards fuel (idx + 1) (hand ++ [cards idx])
    else (hand, idx)

/-- Fuel passed to `dealerDraw` by `runRound`; 9 draws already force a total
of at least 18, so 17 is never exhausted on a valid stream. -/
def DEALER_FUEL : ℕ := 17

/-- Result of the player-decision loop. -/
structure LoopOut where
  frames : List GamePayload
  hand : List Card
  nextIdx : ℕ
  restDecisions : List (List ℕ)
  deriving DecidableEq, Repr

/-- The player decision loop (`while True` in `handle_client`): if the
player's total exceeds 21 the loop exits at once; otherwise the server sends
the control frame, reads one 10-byte frame, silently discards it on a
magic/type mismatch (the `continue` returns to the top of the loop, which
re-sends the control frame), deals one card on `b"Hittt"`, and treats any
other valid command as Stand.  An exhausted decision script models the peer
closing mid-read (`return` in the source): the session aborts. -/
def playerLoop (cards : ℕ → Card) (idx : ℕ) (decisions : List (List ℕ))
    (hand : List Card) : Option LoopOut :=
  if handTotal hand > 21 then some ⟨[], hand, idx, decisions⟩
  else
    match decisions with
    | [] => none
    | d :: rest =>
      match decodeDecision d with
      | none =>
        (playerLoop cards idx rest hand).map
          (fun out => ⟨controlFrame :: out.frames, out.hand, out.nextIdx, out.restDecisions⟩)
      | some dec =>
        if dec.command = hitToken then
          (playerLoop cards (idx + 1) rest (hand ++ [cards idx])).map
            (fun out =>
              ⟨controlFrame :: cardFrame (cards idx) :: out.frames,
               out.hand, out.nextIdx, out.restDecisions⟩)
        else some ⟨[controlFrame], hand, idx, rest⟩

/-- Result of one round. -/
structure RoundOut where
  frames : List GamePayload
  playerHand : List Card
  dealerHand : List Card
  nextIdx : ℕ
  restDecisions : List (List ℕ)
  deriving DecidableEq, Repr

/-- The dealer's play phase (`if p_sum <= 21: while d_sum < 17: ...`): the
dealer draws only when the player did not bust. -/
def dealerPhase (cards : ℕ → Card) (p_sum idx : ℕ) (dHand : List Card) :
    List Card × ℕ :=
  if p_sum ≤ 21 then dealerDraw cards DEALER_FUEL idx dHand else (dHand, idx)

/-- One round of the session loop: deal two player cards and two dealer
cards, send the two player cards then the dealer's first card, run the
player decision loop, let the dealer draw only if the player did not bust,
and send the terminal result frame. -/
def runRound (cards : ℕ → Card) (idx : ℕ) (decisions : List (List ℕ)) :
    Option RoundOut :=
  (playerLoop cards (idx + 4) decisions [cards idx, cards (idx + 1)]).map fun out =>
    ⟨[cardFrame (cards idx), cardFrame (cards (idx + 1)), cardFrame (cards (idx + 2))]
       ++ out.frames
       ++ [resultFrame (resultByte (handTotal out.hand)
            (handTotal (dealerPhase cards (handTotal out.hand) out.nextIdx
              [cards (idx + 2), cards (idx + 3)]).1))],
     out.hand,
     (dealerPhase cards (handTotal out.hand) out.nextIdx [cards (idx + 2), cards (idx + 3)]).1,
     (dealerPhase cards (handTotal out.hand) out.nextIdx [cards (idx + 2), cards (idx + 3)]).2,
     out.restDecisions⟩

/-- The session round loop (`for r in range(rounds)`), returning every
game-payload frame the dealer sends, in order; `none` when some round
aborts. -/
def runSession (cards : ℕ → Card) (idx : ℕ) (decisions : List (List ℕ)) :
    ℕ → Option (List GamePayload)
  | 0 => some []
  | n + 1 =>
    (runRound cards idx decisions).bind fun out =>
      (runSession cards out.nextIdx out.restDecisions n).map (out.frames ++ ·)

/-- `handle_client`: decode the 38-byte session request; on a magic/type
mismatch return without sending anything, otherwise run the requested number
of rounds. -/
def handleClient (request : List ℕ) (cards : ℕ → Card)
    (decisions : List (List ℕ)) : Option (List GamePayload) :=
  match decodeRequest request with
  | none => some []
  | some req => runSession cards 0 decisions req.rounds

/-- Number of terminal (result) frames in a frame list. -/
def countResults (fs : List GamePayload) : ℕ :=
  fs.countP (fun f => f.res != 0)

/-! ## Discovery listener (client side) -/

/-- What the client's offer-listener loop does with one received datagram. -/
inductive OfferAction
  | ignore
  | noMatch (identity : List ℕ)
  | connect (port : ℕ)
  deriving DecidableEq, Repr

/-- One iteration of the client's UDP listen loop: malformed datagrams and
wrong magic/type are ignored, a decoded Offer whose identity differs from
the expected identity only continues the loop, and an exact match connects
to the offered port. -/
def offerStep (expected : List ℕ) (datagram : List ℕ) : OfferAction :=
  match decodeOffer datagram with
  | none => .ignore
  | some o => if o.identity = expected then .connect o.port else .noMatch o.identity

/-- Card stream for the spec's end-to-end scenario: player draws
(10,♥) and (9,♦), dealer draws (8,♣) up and (9,♠) hidden. -/
def scenarioCards : ℕ → Card :=
  fun i => [(10, 0), (9, 1), (8, 2), (9, 3)].getD i (2, 0)

/-- Expected outcome of the scenario round: the three dealt-card frames, one
turn prompt, and the terminal WIN frame; the dealer keeps exactly his two
initial cards (total 17, no draw). -/
def scenarioRound : RoundOut :=
  ⟨[cardFrame (10, 0), cardFrame (9, 1), cardFrame (8, 2), controlFrame, resultFrame 3],
   [(10, 0), (9, 1)], [(8, 2), (9, 3)], 4, []⟩

/-! ## Helper lemmas -/

theorem handTotal_append (h : List Card) (c : Card) :
    handTotal (h ++ [c]) = handTotal h + card_value c.1 := by
  simp [handTotal]

theorem card_value_ge_two {c : Card} (hc : validCard c) : 2 ≤ card_value c.1 := by
  obtain ⟨h1, h13, _⟩ := hc
  unfold card_value
  split_ifs <;> omega

theorem dealerDraw_of_ge (cards : ℕ → Card) (fuel idx : ℕ) (hand : List Card)
    (h : 17 ≤ handTotal hand) : dealerDraw cards fuel idx hand = (hand, idx) := by
  cases fuel with
  | zero => rfl
  | succ n =>
    simp only [dealerDraw]
    rw [if_neg (by omega)]

theorem dealerDraw_step (cards : ℕ → Card) (fuel idx : ℕ) (hand : List Card)
    (h : handTotal hand < 17) :
    dealerDraw cards (fuel + 1) idx hand
      = dealerDraw cards fuel (idx + 1) (hand ++ [cards idx]) := by
  simp only [dealerDraw]
  rw [if_pos h]

theorem dealerDraw_total_ge (cards : ℕ → Card) (hv : validStream cards) :
    ∀ (fuel idx : ℕ) (hand : List Card), 17 ≤ handTotal hand + 2 * fuel →
      17 ≤ handTotal (dealerDraw cards fuel idx hand).1 := by
  intro fuel
  induction fuel with
  | zero =>
    intro idx hand h
    show 17 ≤ handTotal hand
    omega
  | succ n ih =>
    intro idx hand h
    by_cases hl : handTotal hand < 17
    · rw [dealerDraw_step cards n idx hand hl]
      apply ih
      have h2 := card_value_ge_two (hv idx)
      rw [handTotal_append]
      omega
    · rw [dealerDraw_of_ge cards _ idx hand (by omega)]
      show 17 ≤ handTotal hand
      omega

theorem dealerPhase_of_bust (cards : ℕ → Card) (p_sum idx : ℕ) (dHand : List Card)
    (h : 21 < p_sum) : dealerPhase cards p_sum idx dHand = (dHand, idx) := by
  unfold dealerPhase
  rw [if_neg (by omega)]

theorem dealerPhase_total_ge (cards : ℕ → Card) (hv : validStream cards)
    (p_sum idx : ℕ) (dHand : List Card) (h : p_sum ≤ 21) :
    17 ≤ handTotal (dealerPhase cards p_sum idx dHand).1 := by
  unfold dealerPhase
  rw [if_pos h]
  exact dealerDraw_total_ge cards hv DEALER_FUEL idx dHand (by unfold DEALER_FUEL; omega)

theorem runRound_some {cards : ℕ → Card} {idx : ℕ} {decisions : List (List ℕ)}
    {out : RoundOut} (h : runRound cards idx decisions = some out) :
    ∃ lo, playerLoop cards (idx + 4) decisions [cards idx, cards (idx + 1)] = some lo ∧
      out.frames
        = [cardFrame (cards idx), cardFrame (cards (idx + 1)), cardFrame (cards (idx + 2))]
           ++ lo.frames
           ++ [resultFrame (resultByte (handTotal lo.hand)
                (handTotal (dealerPhase cards (handTotal lo.hand) lo.nextIdx
                  [cards (idx + 2), cards (idx + 3)]).1))] ∧
      out.playerHand = lo.hand ∧
      out.dealerHand
        = (dealerPhase cards (handTotal lo.hand) lo.nextIdx
            [cards (idx + 2), cards (idx + 3)]).1 ∧
      out.nextIdx
        = (dealerPhase cards (handTotal lo.hand) lo.nextIdx
            [cards (idx + 2), cards (idx + 3)]).2 ∧
      out.restDecisions = lo.restDecisions := by
  unfold runRound at h
  cases hlo : playerLoop cards (idx + 4) decisions [cards idx, cards (idx + 1)] with
  | none => rw [hlo] at h; simp at h
  | some lo =>
    rw [hlo] at h
    simp only [Option.map_some'] at h
    cases Option.some.inj h
    exact ⟨lo, rfl, rfl, rfl, rfl, rfl, rfl⟩

theorem playerLoop_frames (cards : ℕ → Card) :
    ∀ (decisions : List (List ℕ)) (idx : ℕ) (hand : List Card) (lo : LoopOut),
      playerLoop cards idx decisions hand = some lo →
      ∀ f ∈ lo.frames, f = controlFrame ∨ ∃ j, idx ≤ j ∧ f = cardFrame (cards j) := by
  intro decisions
  induction decisions with
  | nil =>
    intro idx hand lo h f hf
    rw [playerLoop] at h
    split at h
    · cases Option.some.inj h
      simp at hf
    · simp at h
  | cons d rest ih =>
    intro idx hand lo h f hf
    rw [playerLoop] at h
    split at h
    · cases Option.some.inj h
      simp at hf
    · split at h
      · obtain ⟨lo', hrec, rfl⟩ := Option.map_eq_some'.mp h
        rcases List.mem_cons.mp hf with rfl | hf'
        · exact Or.inl rfl
        · exact ih idx hand lo' hrec f hf'
      · split at h
        · obtain ⟨lo', hrec, rfl⟩ := Option.map_eq_some'.mp h
          rcases List.mem_cons.mp hf with rfl | hf'
          · exact Or.inl rfl
          · rcases List.mem_cons.mp hf' with rfl | hf''
            · exact Or.inr ⟨idx, le_refl idx, rfl⟩
            · rcases ih (idx + 1) (hand ++ [cards idx]) lo' hrec f hf'' with hc | ⟨j, hj, hfj⟩
              · exact Or.inl hc
              · exact Or.inr ⟨j, by omega, hfj⟩
        · cases Option.some.inj h
          rcases List.mem_cons.mp hf with rfl | hf'
          · exact Or.inl rfl
          · simp at hf'

theorem resultByte_eq (p d : ℕ) : resultByte p d = resultCode (roundResultSpec p d) := by
  unfold resultByte roundResultSpec
  split_ifs <;> rfl

theorem resultByte_mem (p d : ℕ) :
    resultByte p d = 1 ∨ resultByte p d = 2 ∨ resultByte p d = 3 := by
  unfold resultByte
  split_ifs <;> simp

theorem countResults_round {cards : ℕ → Card} {idx : ℕ} {decisions : List (List ℕ)}
    {out : RoundOut} (h : runRound cards idx decisions = some out) :
    countResults out.frames = 1 := by
  obtain ⟨lo, hlo, hframes, -, -, -, -⟩ := runRound_some h
  unfold countResults
  rw [hframes, List.countP_append, List.countP_append]
  have h1 : List.countP (fun f => f.res != 0)
      [cardFrame (cards idx), cardFrame (cards (idx + 1)), cardFrame (cards (idx + 2))]
      = 0 := by
    simp [List.countP_cons, cardFrame]
  have h2 : List.countP (fun f => f.res != 0) lo.frames = 0 := by
    rw [List.countP_eq_zero]
    intro f hf
    rcases playerLoop_frames cards decisions (idx + 4) [cards idx, cards (idx + 1)]
        lo hlo f hf with rfl | ⟨j, -, rfl⟩
    · simp [controlFrame]
    · simp [cardFrame]
  have h3 : List.countP (fun f => f.res != 0)
      [resultFrame (resultByte (handTotal lo.hand)
        (handTotal (dealerPhase cards (handTotal lo.hand) lo.nextIdx
          [cards (idx + 2), cards (idx + 3)]).1))] = 1 := by
    rcases resultByte_mem (handTotal lo.hand)
        (handTotal (dealerPhase cards (handTotal lo.hand) lo.nextIdx
          [cards (idx + 2), cards (idx + 3)]).1) with hr | hr | hr <;>
      simp [List.countP_cons, resultFrame, hr]
  omega

theorem countResults_session (cards : ℕ → Card) :
    ∀ (n idx : ℕ) (decisions : List (List ℕ)) (fs : List GamePayload),
      runSession cards idx decisions n = some fs → countResults fs = n := by
  intro n
  induction n with
  | zero =>
    intro idx decisions fs h
    cases Option.some.inj h
    rfl
  | succ n ih =>
    intro idx decisions fs h
    rw [runSession] at h
    obtain ⟨out, hout, hmap⟩ := Option.bind_eq_some.mp h
    obtain ⟨fs', hrec, rfl⟩ := Option.map_eq_some'.mp hmap
    unfold countResults
    rw [List.countP_append]
    have h1 := countResults_round hout
    have h2 := ih out.nextIdx out.restDecisions fs' hrec
    unfold countResults at h1 h2
    omega

/-! ## Claims -/

/-- C1: at `RoundResolved` the result is a pure function of the final totals
`(p, d)`: the byte computed by the server (`resultByte`, translated from the
code's assign-then-overwrite chain) agrees everywhere with the spec's
precedence rule (player bust ⇒ LOSS; else dealer bust or higher player total
⇒ WIN; else higher dealer total ⇒ LOSS; else TIE), and the five quoted
examples hold. -/
theorem result_rule_refines_spec :
    (∀ p d : ℕ, resultByte p d = resultCode (roundResultSpec p d)) ∧
    roundResultSpec 22 18 = Result.LOSS ∧
    roundResultSpec 20 22 = Result.WIN ∧
    roundResultSpec 19 19 = Result.TIE ∧
    roundResultSpec 21 21 = Result.TIE ∧
    roundResultSpec 18 26 = Result.WIN :=
  ⟨resultByte_eq, by decide, by decide, by decide, by decide, by decide⟩

/-- C2: `card_value` maps rank 1 to 11, ranks 10..13 to 10 and ranks 2..9 to
themselves; a hand's total is the sum of the per-card values of its ranks;
and appending a card never decreases the total. -/
theorem card_value_and_total :
    card_value 1 = 11 ∧
    (∀ r : ℕ, 10 ≤ r → r ≤ 13 → card_value r = 10) ∧
    (∀ r : ℕ, 2 ≤ r → r ≤ 9 → card_value r = r) ∧
    (∀ h : List Card, handTotal h = (h.map (fun c => card_value c.1)).sum) ∧
    (∀ (h : List Card) (c : Card), handTotal h ≤ handTotal (h ++ [c])) := by
  refine ⟨rfl, ?_, ?_, fun h => rfl, ?_⟩
  · intro r h10 h13
    unfold card_value
    split_ifs <;> omega
  · intro r h2 h9
    unfold card_value
    split_ifs <;> omega
  · intro h c
    rw [handTotal_append]
    omega

/-- Witness for `card_value_and_total` at ranks 13 and 7 and a concrete
append. -/
theorem card_value_and_total_witness :
    card_value 13 = 10 ∧ card_value 7 = 7 ∧
    handTotal [(1, 0)] ≤ handTotal ([(1, 0)] ++ [(13, 3)]) :=
  ⟨card_value_and_total.2.1 13 (by decide) (by decide),
   card_value_and_total.2.2.1 7 (by decide) (by decide),
   card_value_and_total.2.2.2.2 [(1, 0)] (13, 3)⟩

/-- C3: the dealer-draw loop does not draw when the total is already ≥ 17,
draws exactly while the total is < 17, terminates with total ≥ 17 for every
valid card stream (each card is worth ≥ 2, so the fuel bound is never hit),
and within a round it runs only when the player did not bust — a busted
player leaves the dealer with exactly the two initially dealt cards. -/
theorem dealer_play_behavior :
    (∀ (cards : ℕ → Card) (fuel idx : ℕ) (hand : List Card),
        17 ≤ handTotal hand → dealerDraw cards fuel idx hand = (hand, idx)) ∧
    (∀ (cards : ℕ → Card) (fuel idx : ℕ) (hand : List Card),
        handTotal hand < 17 →
        dealerDraw cards (fuel + 1) idx hand
          = dealerDraw cards fuel (idx + 1) (hand ++ [cards idx])) ∧
    (∀ (cards : ℕ → Card) (fuel idx : ℕ) (hand : List Card),
        validStream cards → 17 ≤ handTotal hand + 2 * fuel →
        17 ≤ handTotal (dealerDraw cards fuel idx hand).1) ∧
    (∀ (cards : ℕ → Card) (idx : ℕ) (decisions : List (List ℕ)) (out : RoundOut),
        runRound cards idx decisions = some out → 21 < handTotal out.playerHand →
        out.dealerHand = [cards (idx + 2), cards (idx + 3)]) ∧
    (∀ (cards : ℕ → Card) (idx : ℕ) (decisions : List (List ℕ)) (out : RoundOut),
        validStream cards → runRound cards idx decisions = some out →
        handTotal out.playerHand ≤ 21 → 17 ≤ handTotal out.dealerHand) := by
  refine ⟨dealerDraw_of_ge, dealerDraw_step,
    fun cards fuel idx hand hv hb => dealerDraw_total_ge cards hv fuel idx hand hb, ?_, ?_⟩
  · intro cards idx decisions out hrun hbust
    obtain ⟨lo, hlo, -, hph, hdh, -, -⟩ := runRound_some hrun
    rw [hph] at hbust
    rw [hdh, dealerPhase_of_bust cards _ lo.nextIdx _ hbust]
  · intro cards idx decisions out hv hrun hp
    obtain ⟨lo, hlo, -, hph, hdh, -, -⟩ := runRound_some hrun
    rw [hph] at hp
    rw [hdh]
    exact dealerPhase_total_ge cards hv _ lo.nextIdx _ hp

/-- Witness for `dealer_play_behavior` on the concrete scenario stream. -/
theorem dealer_play_behavior_witness :
    dealerDraw (fun _ => (2, 0)) 5 0 [(10, 0), (10, 1)] = ([(10, 0), (10, 1)], 0) ∧
    dealerDraw (fun _ => (2, 0)) 3 0 [(5, 0), (5, 1)]
      = dealerDraw (fun _ => (2, 0)) 2 1 [(5, 0), (5, 1), (2, 0)] ∧
    17 ≤ handTotal (dealerDraw (fun _ => (2, 0)) 9 0 [] ).1 :=
  ⟨dealer_play_behavior.1 (fun _ => (2, 0)) 5 0 [(10, 0), (10, 1)] (by decide),
   dealer_play_behavior.2.1 (fun _ => (2, 0)) 2 0 [(5, 0), (5, 1)] (by decide),
   dealer_play_behavior.2.2.1 (fun _ => (2, 0)) 9 0 []
     (fun _ => (by decide : validCard ((2 : ℕ), (0 : ℕ)))) (by decide)⟩

/-- C5: in the decision loop a valid frame whose command is exactly
`b"Hittt"` deals one card to the player, appends it to the player hand,
sends it as a payload (whose rank is positive for any real card), and
repeats the loop; a valid frame with any other command is treated as Stand:
the loop exits normally (never an error) with the hand unchanged. -/
theorem decision_hit_or_stand :
    (∀ (cards : ℕ → Card) (idx : ℕ) (d : List ℕ) (rest : List (List ℕ))
        (hand : List Card),
        handTotal hand ≤ 21 → decodeDecision d = some ⟨hitToken⟩ →
        playerLoop cards idx (d :: rest) hand
          = (playerLoop cards (idx + 1) rest (hand ++ [cards idx])).map
              (fun out => ⟨controlFrame :: cardFrame (cards idx) :: out.frames,
                out.hand, out.nextIdx, out.restDecisions⟩)) ∧
    (∀ c : Card, validCard c → 0 < (cardFrame c).rank) ∧
    (∀ (cards : ℕ → Card) (idx : ℕ) (d : List ℕ) (dec : Decision)
        (rest : List (List ℕ)) (hand : List Card),
        handTotal hand ≤ 21 → decodeDecision d = some dec → dec.command ≠ hitToken →
        playerLoop cards idx (d :: rest) hand = some ⟨[controlFrame], hand, idx, rest⟩) := by
  refine ⟨?_, fun c hc => hc.1, ?_⟩
  · intro cards idx d rest hand hle hdec
    rw [playerLoop, if_neg (by omega : ¬ handTotal hand > 21), hdec]
    exact if_pos rfl
  · intro cards idx d dec rest hand hle hdec hne
    rw [playerLoop, if_neg (by omega : ¬ handTotal hand > 21), hdec]
    exact if_neg hne

/-- Witness for `decision_hit_or_stand`: one Hit and one Stand on concrete
frames. -/
theorem decision_hit_or_stand_witness :
    playerLoop (fun _ => ((2 : ℕ), (0 : ℕ))) 0 [encodeDecision ⟨hitToken⟩] []
      = (playerLoop (fun _ => ((2 : ℕ), (0 : ℕ))) 1 [] [(2, 0)]).map
          (fun out => ⟨controlFrame :: cardFrame (2, 0) :: out.frames,
            out.hand, out.nextIdx, out.restDecisions⟩) ∧
    0 < (cardFrame (2, 0)).rank ∧
    playerLoop (fun _ => ((2 : ℕ), (0 : ℕ))) 0 [encodeDecision ⟨standToken⟩] []
      = some ⟨[controlFrame], [], 0, []⟩ :=
  ⟨decision_hit_or_stand.1 (fun _ => (2, 0)) 0 (encodeDecision ⟨hitToken⟩) [] []
     (by decide) (by decide),
   decision_hit_or_stand.2.1 (2, 0) (by decide),
   decision_hit_or_stand.2.2 (fun _ => (2, 0)) 0 (encodeDecision ⟨standToken⟩)
     ⟨standToken⟩ [] [] (by decide) (by decide) (by decide)⟩

/-- C6 counterexample: on a 10-byte frame with a wrong magic constant the
`continue` in the source returns to the top of the `while True` loop, which
re-sends the "your move" control frame.  With decision script
`[all-zero frame, Stand frame]` and a non-busted hand the dealer emits TWO
control frames before the valid Stand completes the exchange — the claim
says only one would be sent. -/
theorem invalid_frame_resends_control :
    playerLoop (fun _ => ((2 : ℕ), (0 : ℕ))) 4
        [List.replicate 10 0, encodeDecision ⟨standToken⟩] [(2, 0), (3, 1)]
      = some ⟨[controlFrame, controlFrame], [(2, 0), (3, 1)], 4, []⟩ := by
  decide

/-- C6 amended: during `PlayerDecision`, a 10-byte frame whose magic
constant or type byte is invalid is silently discarded — the player hand,
the card stream position and the loop's continuation are exactly as if the
frame had never arrived, and the dealer keeps waiting for a valid Decision —
but the loop restarts from its top, so the dealer re-sends the "your move"
control frame (one extra control frame per discarded frame) before the
exchange completes with a valid Decision. -/
theorem invalid_frame_discarded :
    ∀ (cards : ℕ → Card) (idx : ℕ) (d : List ℕ) (rest : List (List ℕ))
      (hand : List Card),
      handTotal hand ≤ 21 → decodeDecision d = none →
      playerLoop cards idx (d :: rest) hand
        = (playerLoop cards idx rest hand).map
            (fun out => ⟨controlFrame :: out.frames, out.hand, out.nextIdx,
              out.restDecisions⟩) := by
  intro cards idx d rest hand hle hdec
  rw [playerLoop, if_neg (by omega : ¬ handTotal hand > 21), hdec]

/-- Witness for `invalid_frame_discarded` on a concrete all-zero frame. -/
theorem invalid_frame_discarded_witness :
    playerLoop (fun _ => ((2 : ℕ), (0 : ℕ))) 4
        [List.replicate 10 0, encodeDecision ⟨standToken⟩] [(2, 0), (3, 1)]
      = (playerLoop (fun _ => ((2 : ℕ), (0 : ℕ))) 4
          [encodeDecision ⟨standToken⟩] [(2, 0), (3, 1)]).map
          (fun out => ⟨controlFrame :: out.frames, out.hand, out.nextIdx,
            out.restDecisions⟩) :=
  invalid_frame_discarded (fun _ => (2, 0)) 4 (List.replicate 10 0)
    [encodeDecision ⟨standToken⟩] [(2, 0), (3, 1)] (by decide) (by decide)

/-- C7: every completed round opens with exactly the three initial card
frames — player card 1, player card 2, the dealer's first card — and every
later frame is either a control frame, a player hit card drawn strictly
after the initial deal (stream index ≥ idx + 4), or the terminal result
frame; the dealer's second card (stream index idx + 3) is never put on the
wire.  In the quoted scenario (player 10+9 = 19, dealer 8 up / 9 hidden = 17,
player stands) the round sends exactly 4 card/result payloads plus 1 control
frame, in order with the prompt before the WIN result. -/
theorem dealing_initial_and_scenario :
    (∀ (cards : ℕ → Card) (idx : ℕ) (decisions : List (List ℕ)) (out : RoundOut),
        runRound cards idx decisions = some out →
        ∃ (mid : List GamePayload) (res : ℕ),
          out.frames = cardFrame (cards idx) :: cardFrame (cards (idx + 1))
              :: cardFrame (cards (idx + 2)) :: mid ++ [resultFrame res] ∧
          ∀ f ∈ mid, f = controlFrame ∨ ∃ j, idx + 4 ≤ j ∧ f = cardFrame (cards j)) ∧
    runRound scenarioCards 0 [encodeDecision ⟨standToken⟩] = some scenarioRound := by
  refine ⟨?_, by decide⟩
  intro cards idx decisions out hrun
  obtain ⟨lo, hlo, hframes, -, -, -, -⟩ := runRound_some hrun
  refine ⟨lo.frames,
    resultByte (handTotal lo.hand) (handTotal (dealerPhase cards (handTotal lo.hand)
      lo.nextIdx [cards (idx + 2), cards (idx + 3)]).1),
    by rw [hframes]; simp, ?_⟩
  intro f hf
  exact playerLoop_frames cards decisions (idx + 4) [cards idx, cards (idx + 1)] lo hlo f hf

/-- Witness for `dealing_initial_and_scenario` on the scenario round. -/
theorem dealing_initial_and_scenario_witness :
    ∃ (mid : List GamePayload) (res : ℕ),
      scenarioRound.frames = cardFrame (scenarioCards 0) :: cardFrame (scenarioCards 1)
          :: cardFrame (scenarioCards 2) :: mid ++ [resultFrame res] ∧
      ∀ f ∈ mid, f = controlFrame ∨ ∃ j, 0 + 4 ≤ j ∧ f = cardFrame (scenarioCards j) :=
  dealing_initial_and_scenario.1 scenarioCards 0 [encodeDecision ⟨standToken⟩]
    scenarioRound (by decide)

/-- C8: once a SessionRequest passes magic/type validation and carries round
count N, `handle_client` is exactly the N-round session loop; a completed
session emits exactly one terminal result frame per round (N in total),
a session with N = 0 sends no game frames at all, and the round count
decoded from a well-formed request is at most 255. -/
theorem session_round_count :
    (∀ (request : List ℕ) (cards : ℕ → Card) (decisions : List (List ℕ))
        (m : SessionRequest),
        decodeRequest request = some m →
        handleClient request cards decisions = runSession cards 0 decisions m.rounds) ∧
    (∀ (cards : ℕ → Card) (idx : ℕ) (decisions : List (List ℕ)) (n : ℕ)
        (fs : List GamePayload),
        runSession cards idx decisions n = some fs → countResults fs = n) ∧
    (∀ (cards : ℕ → Card) (decisions : List (List ℕ)),
        runSession cards 0 decisions 0 = some []) ∧
    (∀ (request : List ℕ) (m : SessionRequest),
        decodeRequest request = some m → (∀ b ∈ request, b < 256) → m.rounds ≤ 255) := by
  refine ⟨?_, fun cards idx decisions n fs h => countResults_session cards n idx decisions fs h,
    fun cards decisions => rfl, ?_⟩
  · intro request cards decisions m hm
    unfold handleClient
    rw [hm]
  · intro request m hm hb
    rcases request with - | ⟨m0, - | ⟨m1, - | ⟨m2, - | ⟨m3, - | ⟨ty, - | ⟨rc, rest⟩⟩⟩⟩⟩⟩ <;>
      simp [decodeRequest] at hm
    obtain ⟨-, rfl⟩ := hm
    have := hb rc (by simp)
    show rc ≤ 255
    omega

/-- Witness for `session_round_count` on a concrete one-round session. -/
theorem session_round_count_witness :
    handleClient (encodeRequest ⟨1, [97]⟩) scenarioCards [encodeDecision ⟨standToken⟩]
      = runSession scenarioCards 0 [encodeDecision ⟨standToken⟩] 1 ∧
    countResults scenarioRound.frames = 1 ∧
    (⟨1, [97]⟩ : SessionRequest).rounds ≤ 255 :=
  ⟨session_round_count.1 (encodeRequest ⟨1, [97]⟩) scenarioCards
     [encodeDecision ⟨standToken⟩] ⟨1, [97]⟩ (by decide),
   session_round_count.2.1 scenarioCards 0 [encodeDecision ⟨standToken⟩] 1
     scenarioRound.frames (by decide),
   session_round_count.2.2.2 (encodeRequest ⟨1, [97]⟩) ⟨1, [97]⟩ (by decide) (by decide)⟩

/-- C10: in every completed round all frames before the terminal one carry
`res = 0`; the last frame is the result frame, with `rank = 0`, `suit = 0`
and a result byte that is always 1 (TIE), 2 (LOSS) or 3 (WIN) — never 0,
never anything else; and this is exactly the encoding the client decodes,
both for display (`clientOutcome`) and for its statistics counters
(`statsUpdate`). -/
theorem frame_field_invariant :
    (∀ (cards : ℕ → Card) (idx : ℕ) (decisions : List (List ℕ)) (out : RoundOut),
        runRound cards idx decisions = some out →
        (∀ f ∈ out.frames.dropLast, f.res = 0) ∧
        out.frames.getLast? = some (resultFrame (resultByte (handTotal out.playerHand)
          (handTotal out.dealerHand)))) ∧
    (∀ p d : ℕ, resultByte p d = 1 ∨ resultByte p d = 2 ∨ resultByte p d = 3) ∧
    (∀ r : ℕ, (resultFrame r).rank = 0 ∧ (resultFrame r).suit = 0) ∧
    (∀ p d : ℕ, clientOutcome (resultByte p d) = some (roundResultSpec p d)) ∧
    (∀ s : Stats,
        statsUpdate s 1 = { s with ties := s.ties + 1 } ∧
        statsUpdate s 2 = { s with losses := s.losses + 1 } ∧
        statsUpdate s 3 = { s with wins := s.wins + 1 }) := by
  refine ⟨?_, resultByte_mem, fun r => ⟨rfl, rfl⟩, ?_, fun s => ⟨rfl, rfl, rfl⟩⟩
  · intro cards idx decisions out hrun
    obtain ⟨lo, hlo, hframes, hph, hdh, -, -⟩ := runRound_some hrun
    constructor
    · intro f hf
      rw [hframes, List.dropLast_concat] at hf
      rcases List.mem_append.mp hf with h3 | hp
      · simp only [List.mem_cons, List.not_mem_nil, or_false] at h3
        rcases h3 with rfl | rfl | rfl <;> rfl
      · rcases playerLoop_frames cards decisions (idx + 4) [cards idx, cards (idx + 1)]
            lo hlo f hp with rfl | ⟨j, -, rfl⟩
        · rfl
        · rfl
    · rw [hframes, hph, hdh]
      exact List.getLast?_concat _
  · intro p d
    rw [resultByte_eq]
    cases roundResultSpec p d <;> rfl

/-- Witness for `frame_field_invariant` on the scenario round. -/
theorem frame_field_invariant_witness :
    (∀ f ∈ scenarioRound.frames.dropLast, f.res = 0) ∧
    scenarioRound.frames.getLast? = some (resultFrame 3) :=
  frame_field_invariant.1 scenarioCards 0 [encodeDecision ⟨standToken⟩]
    scenarioRound (by decide)

/-- C9: the player's discovery listener ignores any datagram whose magic
constant is wrong (even at the correct 39-byte length), a decoded Offer
whose identity differs from the expected identity only continues the listen
loop, and the listener connects — to exactly the offered port — if and only
if the datagram decodes as an Offer whose identity exactly equals the
expected identity.  (The listener carries no other state: one loop iteration
is the pure function `offerStep`.) -/
theorem offer_listener_filter :
    (∀ (expected d : List ℕ), d.length = 39 → fromBE (d.take 4) ≠ MAGIC_COOKIE →
        offerStep expected d = OfferAction.ignore) ∧
    (∀ (expected d : List ℕ) (o : Offer), decodeOffer d = some o →
        o.identity ≠ expected → offerStep expected d = OfferAction.noMatch o.identity) ∧
    (∀ (expected d : List ℕ) (p : ℕ),
        offerStep expected d = OfferAction.connect p ↔
          ∃ o : Offer, decodeOffer d = some o ∧ o.identity = expected ∧ o.port = p) := by
  refine ⟨?_, ?_, ?_⟩
  · intro e d hlen hmag
    rcases d with - | ⟨m0, - | ⟨m1, - | ⟨m2, - | ⟨m3, - | ⟨ty, - | ⟨p0, - | ⟨p1, rest⟩⟩⟩⟩⟩⟩⟩ <;>
      simp at hlen
    have hc : ¬(32 ≤ rest.length ∧ fromBE [m0, m1, m2, m3] = MAGIC_COOKIE ∧ ty = 0x2) :=
      fun hc => hmag hc.2.1
    have hdec : decodeOffer (m0 :: m1 :: m2 :: m3 :: ty :: p0 :: p1 :: rest) = none := by
      unfold decodeOffer
      exact if_neg hc
    unfold offerStep
    rw [hdec]
  · intro e d o hdec hne
    unfold offerStep
    rw [hdec]
    exact if_neg hne
  · intro e d p
    constructor
    · intro h
      unfold offerStep at h
      split at h
      · simp at h
      · rename_i o heq
        split at h
        · rename_i hid
          simp only [OfferAction.connect.injEq] at h
          exact ⟨o, heq, hid, h⟩
        · simp at h
    · rintro ⟨o, hdec, hid, rfl⟩
      unfold offerStep
      rw [hdec]
      exact if_pos hid

/-- Witness for `offer_listener_filter` on concrete datagrams. -/
theorem offer_listener_filter_witness :
    offerStep [97] (0 :: 205 :: 220 :: 186 :: 2 :: 31 :: 144 :: pad32 [97])
      = OfferAction.ignore ∧
    offerStep [97] (encodeOffer ⟨8080, [98]⟩) = OfferAction.noMatch [98] ∧
    (offerStep [97] (encodeOffer ⟨8080, [97]⟩) = OfferAction.connect 8080 ↔
      ∃ o : Offer, decodeOffer (encodeOffer ⟨8080, [97]⟩) = some o ∧
        o.identity = [97] ∧ o.port = 8080) :=
  ⟨offer_listener_filter.1 [97] (0 :: 205 :: 220 :: 186 :: 2 :: 31 :: 144 :: pad32 [97])
     (by decide) (by decide),
   offer_listener_filter.2.1 [97] (encodeOffer ⟨8080, [98]⟩) ⟨8080, [98]⟩
     (by decide) (by decide),
   offer_listener_filter.2.2 [97] (encodeOffer ⟨8080, [97]⟩) 8080⟩

/-! ## Codec lemmas -/

theorem u32be_magic : u32be MAGIC_COOKIE = [171, 205, 220, 186] := by decide

theorem fromBE_magic : fromBE [171, 205, 220, 186] = MAGIC_COOKIE := by decide

theorem fromBE_two (v : ℕ) (hv : v < 65536) : fromBE [v / 256 % 256, v % 256] = v := by
  simp only [fromBE, List.foldl]
  omega

theorem u16be_fromBE {p0 p1 : ℕ} (h0 : p0 < 256) (h1 : p1 < 256) :
    u16be (fromBE [p0, p1]) = [p0, p1] := by
  simp only [fromBE, u16be, List.foldl, List.cons.injEq, and_true]
  omega

theorem magic_bytes_eq {m0 m1 m2 m3 : ℕ} (h0 : m0 < 256) (h1 : m1 < 256)
    (h2 : m2 < 256) (h3 : m3 < 256) (h : fromBE [m0, m1, m2, m3] = MAGIC_COOKIE) :
    m0 = 171 ∧ m1 = 205 ∧ m2 = 220 ∧ m3 = 186 := by
  simp only [fromBE, List.foldl] at h
  unfold MAGIC_COOKIE at h
  omega

theorem pad32_length {s : List ℕ} (h : s.length ≤ 32) : (pad32 s).length = 32 := by
  unfold pad32
  simp
  omega

theorem pad32_eq {s : List ℕ} (h : s.length ≤ 32) :
    pad32 s = s ++ List.replicate (32 - s.length) 0 := by
  unfold pad32
  rw [List.take_of_length_le h]

theorem takeToNull_pad :
    ∀ (s : List ℕ), (∀ b ∈ s, b ≠ 0) → ∀ k,
      takeToNull (s ++ List.replicate k 0) = s := by
  intro s
  induction s with
  | nil =>
    intro h k
    cases k with
    | zero => rfl
    | succ n => simp [takeToNull, List.replicate_succ, List.takeWhile_cons]
  | cons a t ih =>
    intro h k
    have ha : (a != 0) = true := by
      have := h a (by simp)
      simpa using this
    simp only [List.cons_append, takeToNull, List.takeWhile_cons, ha, if_true]
    exact congrArg (a :: ·) (ih (fun b hb => h b (List.mem_cons_of_mem a hb)) k)

theorem dropWhile_zeros_append :
    ∀ (k : ℕ) (r : List ℕ),
      List.dropWhile (fun b => b == 0) (List.replicate k 0 ++ r)
        = List.dropWhile (fun b => b == 0) r := by
  intro k
  induction k with
  | zero => intro r; rfl
  | succ n ih =>
    intro r
    simp only [List.replicate_succ, List.cons_append, List.dropWhile_cons]
    simpa using ih r

theorem dropWhile_zeros_of_forall {l : List ℕ} (hl : ∀ b ∈ l, b ≠ 0) :
    List.dropWhile (fun b => b == 0) l = l := by
  cases l with
  | nil => rfl
  | cons a t =>
    have ha : ¬((a == 0) = true) := by
      have := hl a (by simp)
      simpa using this
    exact List.dropWhile_cons_of_neg ha

theorem dropWhile_zeros_cons {a : ℕ} (ha : a ≠ 0) (l : List ℕ) :
    List.dropWhile (fun b => b == 0) (a :: l) = a :: l := by
  have ha2 : ¬((a == 0) = true) := by simpa using ha
  exact List.dropWhile_cons_of_neg ha2

theorem stripNulls_pad (s : List ℕ) (hs : ∀ b ∈ s, b ≠ 0) (k : ℕ) :
    stripNulls (s ++ List.replicate k 0) = s := by
  cases s with
  | nil =>
    unfold stripNulls
    rw [List.nil_append, show List.replicate k (0 : ℕ) = List.replicate k 0 ++ [] by simp,
      dropWhile_zeros_append]
    rfl
  | cons a t =>
    unfold stripNulls
    rw [List.cons_append, dropWhile_zeros_cons (hs a (by simp)), ← List.cons_append,
      List.reverse_append, List.reverse_replicate, dropWhile_zeros_append,
      dropWhile_zeros_of_forall (fun b hb => hs b (List.mem_reverse.mp hb)),
      List.reverse_reverse]

theorem decodeOffer_encodeOffer (o : Offer) (hp : o.port < 65536)
    (hi : WFident o.identity) : decodeOffer (encodeOffer o) = some o := by
  obtain ⟨port, id⟩ := o
  obtain ⟨hlen, hb⟩ := hi
  have e1 : encodeOffer ⟨port, id⟩
      = 171 :: 205 :: 220 :: 186 :: 2 :: (port / 256 % 256) :: port % 256 :: pad32 id := by
    unfold encodeOffer u16be
    rw [u32be_magic]
    rfl
  rw [e1]
  have hcond : 32 ≤ (pad32 id).length ∧ fromBE [171, 205, 220, 186] = MAGIC_COOKIE
      ∧ (2 : ℕ) = 2 := ⟨le_of_eq (pad32_length hlen).symm, fromBE_magic, rfl⟩
  refine Eq.trans (if_pos hcond) ?_
  rw [List.take_of_length_le (le_of_eq (pad32_length hlen)), pad32_eq hlen,
    takeToNull_pad id (fun x hx => (hb x hx).1.ne') (32 - id.length),
    fromBE_two port hp]

theorem decodeRequest_encodeRequest (m : SessionRequest) (hr : m.rounds < 256)
    (hi : WFident m.identity) : decodeRequest (encodeRequest m) = some m := by
  obtain ⟨rc, id⟩ := m
  obtain ⟨hlen, hb⟩ := hi
  have e1 : encodeRequest ⟨rc, id⟩
      = 171 :: 205 :: 220 :: 186 :: 3 :: rc % 256 :: pad32 id := by
    unfold encodeRequest
    rw [u32be_magic]
    rfl
  rw [e1]
  have hcond : (pad32 id).length = 32 ∧ fromBE [171, 205, 220, 186] = MAGIC_COOKIE
      ∧ (3 : ℕ) = 3 := ⟨pad32_length hlen, fromBE_magic, rfl⟩
  refine Eq.trans (if_pos hcond) ?_
  rw [Nat.mod_eq_of_lt hr, pad32_eq hlen,
    stripNulls_pad id (fun x hx => (hb x hx).1.ne') (32 - id.length)]

theorem decodePayload_encodePayload (g : GamePayload) (h1 : g.res < 256)
    (h2 : g.rank < 65536) (h3 : g.suit < 256) :
    decodePayload (encodePayload g) = some g := by
  obtain ⟨res, rank, suit⟩ := g
  have e1 : encodePayload ⟨res, rank, suit⟩
      = [171, 205, 220, 186, 4, res % 256, rank / 256 % 256, rank % 256, suit % 256] := by
    unfold encodePayload u16be
    rw [u32be_magic]
    rfl
  rw [e1]
  have hcond : fromBE [171, 205, 220, 186] = MAGIC_COOKIE ∧ (4 : ℕ) = 4 :=
    ⟨fromBE_magic, rfl⟩
  show (if fromBE [171, 205, 220, 186] = MAGIC_COOKIE ∧ (4 : ℕ) = 4 then
      some (⟨res % 256, fromBE [rank / 256 % 256, rank % 256], suit % 256⟩ : GamePayload)
    else none) = some ⟨res, rank, suit⟩
  rw [if_pos hcond, Nat.mod_eq_of_lt h1, Nat.mod_eq_of_lt h3, fromBE_two rank h2]

theorem decodeDecision_encodeDecision (d : Decision) (h : d.command.length = 5) :
    decodeDecision (encodeDecision d) = some d := by
  obtain ⟨cmd⟩ := d
  rcases cmd with - | ⟨c0, - | ⟨c1, - | ⟨c2, - | ⟨c3, - | ⟨c4, t⟩⟩⟩⟩⟩ <;> simp at h
  subst h
  have e1 : encodeDecision ⟨[c0, c1, c2, c3, c4]⟩
      = [171, 205, 220, 186, 4, c0, c1, c2, c3, c4] := by
    unfold encodeDecision
    rw [u32be_magic]
    rfl
  rw [e1]
  have hcond : fromBE [171, 205, 220, 186] = MAGIC_COOKIE ∧ (4 : ℕ) = 4 :=
    ⟨fromBE_magic, rfl⟩
  show (if fromBE [171, 205, 220, 186] = MAGIC_COOKIE ∧ (4 : ℕ) = 4 then
      some (⟨[c0, c1, c2, c3, c4]⟩ : Decision) else none) = some ⟨[c0, c1, c2, c3, c4]⟩
  exact if_pos hcond

theorem encodeOffer_decodeOffer (b : List ℕ) (hv : validOfferFrame b) :
    ∃ o, decodeOffer b = some o ∧ encodeOffer o = b := by
  obtain ⟨hlen, hbyte, hmagic, hty, hident⟩ := hv
  rcases b with - | ⟨m0, - | ⟨m1, - | ⟨m2, - | ⟨m3, - | ⟨ty, - | ⟨p0, - | ⟨p1, rest⟩⟩⟩⟩⟩⟩⟩ <;>
    simp at hlen
  rw [u32be_magic] at hmagic
  simp only [List.take_succ_cons, List.take_zero, List.cons.injEq, and_true] at hmagic
  obtain ⟨rfl, rfl, rfl, rfl⟩ := hmagic
  simp only [List.getD_cons_succ, List.getD_cons_zero] at hty
  subst hty
  obtain ⟨s, k, hs, hsk, hrest⟩ := hident
  have hrest2 : rest = s ++ List.replicate k 0 := hrest
  subst hrest2
  have hl32 : (s ++ List.replicate k 0).length = 32 := by
    simp
    omega
  have hcond : 32 ≤ (s ++ List.replicate k 0).length
      ∧ fromBE [171, 205, 220, 186] = MAGIC_COOKIE ∧ (2 : ℕ) = 2 :=
    ⟨le_of_eq hl32.symm, fromBE_magic, rfl⟩
  have hd : decodeOffer
      (171 :: 205 :: 220 :: 186 :: 2 :: p0 :: p1 :: (s ++ List.replicate k 0))
      = some ⟨fromBE [p0, p1], takeToNull (List.take 32 (s ++ List.replicate k 0))⟩ := by
    unfold decodeOffer
    exact if_pos hcond
  rw [List.take_of_length_le (le_of_eq hl32), takeToNull_pad s
    (fun x hx => (hs x hx).1.ne') k] at hd
  refine ⟨⟨fromBE [p0, p1], s⟩, hd, ?_⟩
  have hslen : s.length ≤ 32 := by omega
  unfold encodeOffer
  rw [u32be_magic]
  show [171, 205, 220, 186]
      ++ 2 :: u16be (fromBE [p0, p1]) ++ pad32 s
      = 171 :: 205 :: 220 :: 186 :: 2 :: p0 :: p1 :: (s ++ List.replicate k 0)
  rw [u16be_fromBE (hbyte p0 (by simp)) (hbyte p1 (by simp)), pad32_eq hslen,
    show 32 - s.length = k from by omega]
  rfl

theorem encodeRequest_decodeRequest (b : List ℕ) (hv : validRequestFrame b) :
    ∃ m, decodeRequest b = some m ∧ encodeRequest m = b := by
  obtain ⟨hlen, hbyte, hmagic, hty, hident⟩ := hv
  rcases b with - | ⟨m0, - | ⟨m1, - | ⟨m2, - | ⟨m3, - | ⟨ty, - | ⟨rc, rest⟩⟩⟩⟩⟩⟩ <;>
    simp at hlen
  rw [u32be_magic] at hmagic
  simp only [List.take_succ_cons, List.take_zero, List.cons.injEq, and_true] at hmagic
  obtain ⟨rfl, rfl, rfl, rfl⟩ := hmagic
  simp only [List.getD_cons_succ, List.getD_cons_zero] at hty
  subst hty
  obtain ⟨s, k, hs, hsk, hrest⟩ := hident
  have hrest2 : rest = s ++ List.replicate k 0 := hrest
  subst hrest2
  have hl32 : (s ++ List.replicate k 0).length = 32 := by
    simp
    omega
  have hcond : (s ++ List.replicate k 0).length = 32
      ∧ fromBE [171, 205, 220, 186] = MAGIC_COOKIE ∧ (3 : ℕ) = 3 :=
    ⟨hl32, fromBE_magic, rfl⟩
  have hd : decodeRequest
      (171 :: 205 :: 220 :: 186 :: 3 :: rc :: (s ++ List.replicate k 0))
      = some ⟨rc, stripNulls (s ++ List.replicate k 0)⟩ := by
    unfold decodeRequest
    exact if_pos hcond
  rw [stripNulls_pad s (fun x hx => (hs x hx).1.ne') k] at hd
  refine ⟨⟨rc, s⟩, hd, ?_⟩
  have hslen : s.length ≤ 32 := by omega
  unfold encodeRequest
  rw [u32be_magic]
  show [171, 205, 220, 186] ++ 3 :: rc % 256 :: pad32 s
      = 171 :: 205 :: 220 :: 186 :: 3 :: rc :: (s ++ List.replicate k 0)
  rw [Nat.mod_eq_of_lt (hbyte rc (by simp)), pad32_eq hslen,
    show 32 - s.length = k from by omega]
  rfl

theorem encodePayload_decodePayload (b : List ℕ) (hv : validPayloadFrame b) :
    ∃ g, decodePayload b = some g ∧ encodePayload g = b := by
  obtain ⟨hlen, hbyte, hmagic, hty⟩ := hv
  rcases b with - | ⟨m0, - | ⟨m1, - | ⟨m2, - | ⟨m3, - | ⟨ty, - | ⟨res,
    - | ⟨r0, - | ⟨r1, - | ⟨suit, t⟩⟩⟩⟩⟩⟩⟩⟩⟩ <;> simp at hlen
  subst hlen
  rw [u32be_magic] at hmagic
  simp only [List.take_succ_cons, List.take_zero, List.cons.injEq, and_true] at hmagic
  obtain ⟨rfl, rfl, rfl, rfl⟩ := hmagic
  simp only [List.getD_cons_succ, List.getD_cons_zero] at hty
  subst hty
  have hcond : fromBE [171, 205, 220, 186] = MAGIC_COOKIE ∧ (4 : ℕ) = 4 :=
    ⟨fromBE_magic, rfl⟩
  have hd : decodePayload [171, 205, 220, 186, 4, res, r0, r1, suit]
      = some ⟨res, fromBE [r0, r1], suit⟩ := by
    unfold decodePayload
    exact if_pos hcond
  refine ⟨⟨res, fromBE [r0, r1], suit⟩, hd, ?_⟩
  unfold encodePayload
  rw [u32be_magic]
  show [171, 205, 220, 186] ++ 4 :: res % 256 :: u16be (fromBE [r0, r1]) ++ [suit % 256]
      = [171, 205, 220, 186, 4, res, r0, r1, suit]
  rw [Nat.mod_eq_of_lt (hbyte res (by simp)), Nat.mod_eq_of_lt (hbyte suit (by simp)),
    u16be_fromBE (hbyte r0 (by simp)) (hbyte r1 (by simp))]
  rfl

theorem encodeDecision_decodeDecision (b : List ℕ) (hv : validDecisionFrame b) :
    ∃ d, decodeDecision b = some d ∧ encodeDecision d = b := by
  obtain ⟨hlen, hbyte, hmagic, hty⟩ := hv
  rcases b with - | ⟨m0, - | ⟨m1, - | ⟨m2, - | ⟨m3, - | ⟨ty, - | ⟨c0,
    - | ⟨c1, - | ⟨c2, - | ⟨c3, - | ⟨c4, t⟩⟩⟩⟩⟩⟩⟩⟩⟩⟩ <;> simp at hlen
  subst hlen
  rw [u32be_magic] at hmagic
  simp only [List.take_succ_cons, List.take_zero, List.cons.injEq, and_true] at hmagic
  obtain ⟨rfl, rfl, rfl, rfl⟩ := hmagic
  simp only [List.getD_cons_succ, List.getD_cons_zero] at hty
  subst hty
  have hcond : fromBE [171, 205, 220, 186] = MAGIC_COOKIE ∧ (4 : ℕ) = 4 :=
    ⟨fromBE_magic, rfl⟩
  have hd : decodeDecision [171, 205, 220, 186, 4, c0, c1, c2, c3, c4]
      = some ⟨[c0, c1, c2, c3, c4]⟩ := by
    unfold decodeDecision
    exact if_pos hcond
  exact ⟨⟨[c0, c1, c2, c3, c4]⟩, hd, rfl⟩

/-- C4: the four fixed-size frame layouts round-trip.  Encoding a well-formed
message (port/rank within their 2-byte widths, single-byte fields < 256,
identity ≤ 32 null-free ASCII bytes zero-padded to 32) and decoding it gives
the message back; decoding any byte-wise valid frame (correct length, magic
and type, identity field = null-free prefix + null padding) and re-encoding
gives back exactly the original bytes.  The boundary values rank = 13,
suit = 3, roundCount = 255 and a full 32-byte identity with no trailing null
are included as closed instances. -/
theorem codec_roundtrip :
    (∀ o : Offer, o.port < 65536 → WFident o.identity →
        decodeOffer (encodeOffer o) = some o) ∧
    (∀ m : SessionRequest, m.rounds < 256 → WFident m.identity →
        decodeRequest (encodeRequest m) = some m) ∧
    (∀ g : GamePayload, g.res < 256 → g.rank < 65536 → g.suit < 256 →
        decodePayload (encodePayload g) = some g) ∧
    (∀ d : Decision, d.command.length = 5 →
        decodeDecision (encodeDecision d) = some d) ∧
    (∀ b : List ℕ, validOfferFrame b →
        ∃ o, decodeOffer b = some o ∧ encodeOffer o = b) ∧
    (∀ b : List ℕ, validRequestFrame b →
        ∃ m, decodeRequest b = some m ∧ encodeRequest m = b) ∧
    (∀ b : List ℕ, validPayloadFrame b →
        ∃ g, decodePayload b = some g ∧ encodePayload g = b) ∧
    (∀ b : List ℕ, validDecisionFrame b →
        ∃ d, decodeDecision b = some d ∧ encodeDecision d = b) ∧
    decodePayload (encodePayload ⟨0, 13, 3⟩) = some ⟨0, 13, 3⟩ ∧
    decodeRequest (encodeRequest ⟨255, List.replicate 32 65⟩)
      = some ⟨255, List.replicate 32 65⟩ ∧
    decodeOffer (encodeOffer ⟨65535, List.replicate 32 90⟩)
      = some ⟨65535, List.replicate 32 90⟩ :=
  ⟨decodeOffer_encodeOffer, decodeRequest_encodeRequest, decodePayload_encodePayload,
   decodeDecision_encodeDecision, encodeOffer_decodeOffer, encodeRequest_decodeRequest,
   encodePayload_decodePayload, encodeDecision_decodeDecision,
   by decide, by decide, by decide⟩

/-- Witness for `codec_roundtrip` on concrete messages and frames. -/
theorem codec_roundtrip_witness :
    decodeOffer (encodeOffer ⟨12345, [98, 97, 100]⟩) = some ⟨12345, [98, 97, 100]⟩ ∧
    decodeRequest (encodeRequest ⟨7, [120]⟩) = some ⟨7, [120]⟩ ∧
    decodePayload (encodePayload ⟨2, 10, 1⟩) = some ⟨2, 10, 1⟩ ∧
    decodeDecision (encodeDecision ⟨hitToken⟩) = some ⟨hitToken⟩ ∧
    (∃ o, decodeOffer (encodeOffer ⟨8080, [97]⟩) = some o
       ∧ encodeOffer o = encodeOffer ⟨8080, [97]⟩) ∧
    (∃ m, decodeRequest (encodeRequest ⟨3, [99]⟩) = some m
       ∧ encodeRequest m = encodeRequest ⟨3, [99]⟩) ∧
    (∃ g, decodePayload (encodePayload ⟨1, 5, 2⟩) = some g
       ∧ encodePayload g = encodePayload ⟨1, 5, 2⟩) ∧
    (∃ d, decodeDecision (encodeDecision ⟨standToken⟩) = some d
       ∧ encodeDecision d = encodeDecision ⟨standToken⟩) :=
  ⟨codec_roundtrip.1 ⟨12345, [98, 97, 100]⟩ (by decide) (by decide),
   codec_roundtrip.2.1 ⟨7, [120]⟩ (by decide) (by decide),
   codec_roundtrip.2.2.1 ⟨2, 10, 1⟩ (by decide) (by decide) (by decide),
   codec_roundtrip.2.2.2.1 ⟨hitToken⟩ (by decide),
   codec_roundtrip.2.2.2.2.1 (encodeOffer ⟨8080, [97]⟩)
     ⟨by decide, by decide, by decide, by decide,
      ⟨[97], 31, by decide, by decide, by decide⟩⟩,
   codec_roundtrip.2.2.2.2.2.1 (encodeRequest ⟨3, [99]⟩)
     ⟨by decide, by decide, by decide, by decide,
      ⟨[99], 31, by decide, by decide, by decide⟩⟩,
   codec_roundtrip.2.2.2.2.2.2.1 (encodePayload ⟨1, 5, 2⟩)
     ⟨by decide, by decide, by decide, by decide⟩,
   codec_roundtrip.2.2.2.2.2.2.2.1 (encodeDecision ⟨standToken⟩)
     ⟨by decide, by decide, by decide, by decide⟩⟩

end Blackjack
